import Mathlib

/-!
Shallow embedding of internal/pkg/BlockchainC2/server.go.

The embedding follows the Go source line by line.  External collaborators
(the JSON codec, the symmetric cipher from Utils, and the blockchain
transport EventC2Client.AddClientData) are taken as function parameters,
matching the spec, which treats them as consumed interfaces.  Go machine
integers here are counters (int64 Seq/OutSeq, big.Int nonce and event Seq);
they are modelled as Int, as no claim depends on 64-bit wraparound.
-/

namespace BlockchainC2

/-- Modelled from the spec: the numeric value of the Handshake status
constant is defined outside server.go; the claims only compare `Status`
against this named constant, so its value is irrelevant. -/
def Handshake : Int := 0

/-- Agent, from server.go lines 42-53.  SessionKey is a Go byte slice that
may be nil (`Option`); LastSeen holds the formatted timestamp string. -/
structure Agent where
  AgentID : String
  LastSeen : String
  Seq : Int
  OutSeq : Int
  UIHistory : String
  DataBuffer : String
  SessionKey : Option (List Nat)
  CurrentUser : String
  Hostname : String
  Status : Int
deriving DecidableEq, Repr

/-- The BlockchainC2 command envelope: the fields of the struct literal
built in SendToAgent (lines 94-98) and decoded in RecvFromAgentLoop. -/
structure BlockchainC2 where
  AgentID : String
  MsgID : Int
  Data : String
deriving DecidableEq, Repr

/-- EventC2ServerData: the fields of an inbound transport event read by
RecvFromAgentLoop (AgentID, Seq, Data, F = final flag, Enc). -/
structure EventC2ServerData where
  AgentID : String
  Seq : Int
  Data : String
  F : Bool
  Enc : Bool
deriving DecidableEq, Repr

/-- The server state touched by the claims: the Agents map
(server.go line 38) and Auth.Nonce (the transport ordering token,
line 142).  The map is a partial function, as in Go a map lookup of a
missing key yields nil. -/
structure BlockchainServer where
  Agents : String → Option Agent
  Nonce : Int

/-- GetAgentByID, server.go lines 57-63. -/
def GetAgentByID (bc : BlockchainServer) (agentID : String) : Option Agent :=
  bc.Agents agentID

/-- The Go map assignment `bc.Agents[agentID] = agent` (and, because
agents are held by pointer, any in-place mutation of an agent record). -/
def updateAgent (bc : BlockchainServer) (agentID : String) (a : Agent) :
    BlockchainServer :=
  { bc with Agents := fun k => if k = agentID then some a else bc.Agents k }

/-- The agent literal of server.go lines 73-79.  `now` stands for
time.Now().Format("..."); fields absent from the literal get their Go
zero values (empty strings, nil SessionKey). -/
def newAgent (agentID now : String) : Agent :=
  { AgentID := agentID
    LastSeen := now
    Seq := 0
    OutSeq := 0
    UIHistory := ""
    DataBuffer := ""
    SessionKey := none
    CurrentUser := ""
    Hostname := ""
    Status := Handshake }

/-- GetOrCreateAgent, server.go lines 68-83. -/
def GetOrCreateAgent (bc : BlockchainServer) (agentID now : String) :
    BlockchainServer × Agent :=
  match GetAgentByID bc agentID with
  | some agent => (bc, agent)
  | none => (updateAgent bc agentID (newAgent agentID now), newAgent agentID now)

/-- The final-chunk emission block of RecvFromAgentLoop, server.go lines
171-189: decrypt when the event is marked encrypted, JSON-decode, and
emit on success; any failure emits nothing. -/
def finalEmit (decrypt : String → Option (List Nat) → Option String)
    (unmarshal : String → Option BlockchainC2)
    (buffer : String) (key : Option (List Nat)) (enc : Bool) :
    List BlockchainC2 :=
  if enc then
    match decrypt buffer key with
    | some raw =>
      match unmarshal raw with
      | some c2 => [c2]
      | none => []
    | none => []
  else
    match unmarshal buffer with
    | some c2 => [c2]
    | none => []

/-- One iteration of RecvFromAgentLoop, server.go lines 154-193, for a
single inbound event: get-or-create the agent, drop stale or duplicate
events (seq at or below the watermark), otherwise advance the watermark,
append to the data buffer, and on a final chunk emit and clear the
buffer.  Returns the new state and the envelopes pushed to channel o. -/
def recvStep (decrypt : String → Option (List Nat) → Option String)
    (unmarshal : String → Option BlockchainC2)
    (now : String) (bc : BlockchainServer) (e : EventC2ServerData) :
    BlockchainServer × List BlockchainC2 :=
  let bc1 := (GetOrCreateAgent bc e.AgentID now).1
  let agent := (GetOrCreateAgent bc e.AgentID now).2
  if e.Seq ≤ agent.Seq then (bc1, [])
  else if e.F then
    (updateAgent bc1 e.AgentID { agent with Seq := e.Seq, DataBuffer := "" },
     finalEmit decrypt unmarshal (agent.DataBuffer ++ e.Data) agent.SessionKey e.Enc)
  else
    (updateAgent bc1 e.AgentID
      { agent with Seq := e.Seq, DataBuffer := agent.DataBuffer ++ e.Data }, [])

/-- RecvFromAgentLoop over a finite prefix of the event channel: each
event is paired with the wall-clock timestamp string at which it is
processed.  Emitted envelopes are collected in order. -/
def recvMany (decrypt : String → Option (List Nat) → Option String)
    (unmarshal : String → Option BlockchainC2)
    (bc : BlockchainServer) (evs : List (String × EventC2ServerData)) :
    BlockchainServer × List BlockchainC2 :=
  match evs with
  | [] => (bc, [])
  | (now, e) :: rest =>
    let out1 := recvStep decrypt unmarshal now bc e
    let out2 := recvMany decrypt unmarshal out1.1 rest
    (out2.1, out1.2 ++ out2.2)

/-- The result of SendToAgent.  The Go function returns an error value:
the not-found error of line 103, a marshal error (line 108), an
encryption error (line 119), or the transport error of AddClientData
propagated unmodified (line 138), carried here as a value of ε. -/
inductive SendResult (ε : Type) where
  | ok
  | agentNotFound
  | marshalError
  | encryptError
  | transportError (e : ε)
deriving DecidableEq, Repr

def SendResult.isOk {ε : Type} : SendResult ε → Bool
  | .ok => true
  | _ => false

/-- One call to EventC2Client.AddClientData, server.go lines 129-136:
agent id, raw payload, sequence number, final flag and encrypted flag. -/
structure Submission where
  agentID : String
  rawData : String
  seq : Int
  final : Bool
  enc : Bool
deriving DecidableEq, Repr

/-- The observable outcome of SendToAgent: the final server state, the
returned error value, and the list of transport submissions attempted. -/
structure SendOutcome (ε : Type) where
  state : BlockchainServer
  result : SendResult ε
  subs : List Submission

/-- SendToAgent, server.go lines 91-145.  `marshal` is json.Marshal on
the envelope, `symmetricEncrypt` is Utils.SymmetricEncrypt, and
`addClientData` is the transport submission, returning the transport
error on failure.  Note that the `encrypt` parameter of the Go function
is never read by its body. -/
def SendToAgent {ε : Type}
    (marshal : BlockchainC2 → Option String)
    (symmetricEncrypt : String → List Nat → Option String)
    (addClientData : Submission → Except ε Unit)
    (bc : BlockchainServer) (agentID : String) (data : String) (msgID : Int)
    ( encrypt : Bool) : SendOutcome ε :=
  let command : BlockchainC2 := { AgentID := agentID, MsgID := msgID, Data := data }
  match GetAgentByID bc agentID with
  | none => ⟨bc, .agentNotFound, []⟩
  | some agent =>
    match marshal command with
    | none => ⟨bc, .marshalError, []⟩
    | some bytes =>
      let step : Option (String × Bool) :=
        match agent.SessionKey with
        | none => some (bytes, false)
        | some key =>
          match symmetricEncrypt bytes key with
          | none => none
          | some ct => some (ct, true)
      match step with
      | none => ⟨bc, .encryptError, []⟩
      | some (rawData, enc) =>
        let agent1 := { agent with OutSeq := agent.OutSeq + 1 }
        let bc1 := updateAgent bc agentID agent1
        let sub : Submission := ⟨agentID, rawData, agent1.OutSeq, true, enc⟩
        match addClientData sub with
        | .error te => ⟨bc1, .transportError te, [sub]⟩
        | .ok _ => ⟨{ bc1 with Nonce := bc1.Nonce + 1 }, .ok, [sub]⟩

/-- The logical parse of a completed buffer: decrypt-then-decode when the
final fragment was marked encrypted, plain decode otherwise.  Used only
in theorem statements; `finalEmit_eq_finalParse` ties it to the code. -/
def finalParse (decrypt : String → Option (List Nat) → Option String)
    (unmarshal : String → Option BlockchainC2)
    (buffer : String) (key : Option (List Nat)) (enc : Bool) :
    Option BlockchainC2 :=
  if enc then (decrypt buffer key).bind unmarshal else unmarshal buffer

/-- A well-formed fragment run for agent `aid` above watermark `w`:
nonempty, all fragments addressed to `aid`, strictly increasing sequence
numbers starting above `w`, and the final flag set exactly on the last
fragment. -/
def fragRun (aid : String) (w : Int) : List (String × EventC2ServerData) → Bool
  | [] => false
  | [(_, e)] => e.AgentID == aid && decide (w < e.Seq) && e.F
  | (_, e) :: rest =>
    e.AgentID == aid && decide (w < e.Seq) && !e.F && fragRun aid e.Seq rest

/-- Concatenation of the fragment payloads of a run, in delivery order. -/
def fragData : List (String × EventC2ServerData) → String
  | [] => ""
  | (_, e) :: rest => e.Data ++ fragData rest

/-- The encrypted flag of the last fragment of a run (the only one the
code consults when reassembling). -/
def lastEnc : List (String × EventC2ServerData) → Bool
  | [] => false
  | [(_, e)] => e.Enc
  | _ :: rest => lastEnc rest

/-! ## Basic lemmas about the embedding -/

theorem getOrCreate_found {bc : BlockchainServer} {agentID : String} {a : Agent}
    (h : GetAgentByID bc agentID = some a) (now : String) :
    GetOrCreateAgent bc agentID now = (bc, a) := by
  simp [GetOrCreateAgent, h]

theorem getOrCreate_missing {bc : BlockchainServer} {agentID : String}
    (h : GetAgentByID bc agentID = none) (now : String) :
    GetOrCreateAgent bc agentID now =
      (updateAgent bc agentID (newAgent agentID now), newAgent agentID now) := by
  simp [GetOrCreateAgent, h]

theorem lookup_update (bc : BlockchainServer) (agentID : String) (a : Agent)
    (k : String) :
    GetAgentByID (updateAgent bc agentID a) k =
      if k = agentID then some a else GetAgentByID bc k := by
  simp [GetAgentByID, updateAgent]

theorem nonce_update (bc : BlockchainServer) (agentID : String) (a : Agent) :
    (updateAgent bc agentID a).Nonce = bc.Nonce := rfl

theorem finalEmit_eq_finalParse (decrypt : String → Option (List Nat) → Option String)
    (unmarshal : String → Option BlockchainC2)
    (buffer : String) (key : Option (List Nat)) (enc : Bool) :
    finalEmit decrypt unmarshal buffer key enc =
      (finalParse decrypt unmarshal buffer key enc).toList := by
  unfold finalEmit finalParse
  cases enc with
  | false =>
    simp only [if_neg Bool.false_ne_true]
    cases h2 : unmarshal buffer <;> simp [h2]
  | true =>
    simp only [if_pos rfl]
    cases h1 : decrypt buffer key with
    | none => simp
    | some raw => cases h2 : unmarshal raw <;> simp [h2]

theorem recvStep_stale {bc : BlockchainServer} {e : EventC2ServerData} {a : Agent}
    (decrypt : String → Option (List Nat) → Option String)
    (unmarshal : String → Option BlockchainC2) (now : String)
    (h : GetAgentByID bc e.AgentID = some a) (hseq : e.Seq ≤ a.Seq) :
    recvStep decrypt unmarshal now bc e = (bc, []) := by
  unfold recvStep
  rw [getOrCreate_found h now]
  simp [hseq]

theorem recvStep_accept_nonfinal {bc : BlockchainServer} {e : EventC2ServerData}
    {a : Agent}
    (decrypt : String → Option (List Nat) → Option String)
    (unmarshal : String → Option BlockchainC2) (now : String)
    (h : GetAgentByID bc e.AgentID = some a) (hseq : a.Seq < e.Seq)
    (hf : e.F = false) :
    recvStep decrypt unmarshal now bc e =
      (updateAgent bc e.AgentID
        { a with Seq := e.Seq, DataBuffer := a.DataBuffer ++ e.Data }, []) := by
  unfold recvStep
  rw [getOrCreate_found h now]
  simp [not_le.mpr hseq, hf]

theorem recvStep_accept_final {bc : BlockchainServer} {e : EventC2ServerData}
    {a : Agent}
    (decrypt : String → Option (List Nat) → Option String)
    (unmarshal : String → Option BlockchainC2) (now : String)
    (h : GetAgentByID bc e.AgentID = some a) (hseq : a.Seq < e.Seq)
    (hf : e.F = true) :
    recvStep decrypt unmarshal now bc e =
      (updateAgent bc e.AgentID { a with Seq := e.Seq, DataBuffer := "" },
       finalEmit decrypt unmarshal (a.DataBuffer ++ e.Data) a.SessionKey e.Enc) := by
  unfold recvStep
  rw [getOrCreate_found h now]
  simp [not_le.mpr hseq, hf]

theorem recvStep_lookup_other {bc : BlockchainServer} {e : EventC2ServerData}
    (decrypt : String → Option (List Nat) → Option String)
    (unmarshal : String → Option BlockchainC2) (now : String)
    {aid : String} (hne : aid ≠ e.AgentID) :
    GetAgentByID (recvStep decrypt unmarshal now bc e).1 aid =
      GetAgentByID bc aid := by
  unfold recvStep
  cases h : GetAgentByID bc e.AgentID with
  | some a =>
    rw [getOrCreate_found h now]
    by_cases hseq : e.Seq ≤ a.Seq
    · simp [hseq]
    · by_cases hf : e.F = true
      · simp [hseq, hf, lookup_update, hne]
      · simp [hseq, hf, lookup_update, hne]
  | none =>
    rw [getOrCreate_missing h now]
    by_cases hseq : e.Seq ≤ (newAgent e.AgentID now).Seq
    · simp [hseq, lookup_update, hne]
    · by_cases hf : e.F = true
      · simp [hseq, hf, lookup_update, hne]
      · simp [hseq, hf, lookup_update, hne]

theorem recvStep_lookup_self {bc : BlockchainServer} {e : EventC2ServerData}
    {a : Agent}
    (decrypt : String → Option (List Nat) → Option String)
    (unmarshal : String → Option BlockchainC2) (now : String)
    (h : GetAgentByID bc e.AgentID = some a) :
    ∃ a2, GetAgentByID (recvStep decrypt unmarshal now bc e).1 e.AgentID = some a2 ∧
      a.Seq ≤ a2.Seq ∧ a2.SessionKey = a.SessionKey ∧ a2.Status = a.Status := by
  by_cases hseq : e.Seq ≤ a.Seq
  · exact ⟨a, by rw [recvStep_stale decrypt unmarshal now h hseq]; exact h,
      le_refl _, rfl, rfl⟩
  · push_neg at hseq
    by_cases hf : e.F = true
    · refine ⟨{ a with Seq := e.Seq, DataBuffer := "" }, ?_, le_of_lt hseq, rfl, rfl⟩
      rw [recvStep_accept_final decrypt unmarshal now h hseq hf]
      simp [lookup_update]
    · refine ⟨{ a with Seq := e.Seq, DataBuffer := a.DataBuffer ++ e.Data }, ?_,
        le_of_lt hseq, rfl, rfl⟩
      rw [recvStep_accept_nonfinal decrypt unmarshal now h hseq (by simpa using hf)]
      simp [lookup_update]

theorem recvMany_lookup_mono {evs : List (String × EventC2ServerData)} :
    ∀ {bc : BlockchainServer} {aid : String} {a : Agent}
    (decrypt : String → Option (List Nat) → Option String)
    (unmarshal : String → Option BlockchainC2),
    GetAgentByID bc aid = some a →
    ∃ a2, GetAgentByID (recvMany decrypt unmarshal bc evs).1 aid = some a2 ∧
      a.Seq ≤ a2.Seq := by
  induction evs with
  | nil => exact fun _ _ h => ⟨_, h, le_refl _⟩
  | cons p rest ih =>
    intro bc aid a decrypt unmarshal h
    obtain ⟨now, e⟩ := p
    by_cases haid : aid = e.AgentID
    · subst haid
      obtain ⟨a1, h1, hle1, _, _⟩ := recvStep_lookup_self decrypt unmarshal now h
      obtain ⟨a2, h2, hle2⟩ := ih decrypt unmarshal h1
      exact ⟨a2, by simpa [recvMany] using h2, le_trans hle1 hle2⟩
    · have h1 : GetAgentByID (recvStep decrypt unmarshal now bc e).1 aid = some a :=
        (recvStep_lookup_other decrypt unmarshal now haid).trans h
      obtain ⟨a2, h2, hle2⟩ := ih decrypt unmarshal h1
      exact ⟨a2, by simpa [recvMany] using h2, hle2⟩

theorem recvMany_cons (decrypt : String → Option (List Nat) → Option String)
    (unmarshal : String → Option BlockchainC2) (bc : BlockchainServer)
    (now : String) (e : EventC2ServerData)
    (rest : List (String × EventC2ServerData)) :
    recvMany decrypt unmarshal bc ((now, e) :: rest) =
      ((recvMany decrypt unmarshal (recvStep decrypt unmarshal now bc e).1 rest).1,
       (recvStep decrypt unmarshal now bc e).2 ++
         (recvMany decrypt unmarshal (recvStep decrypt unmarshal now bc e).1 rest).2) :=
  rfl

theorem recvRun_aux (decrypt : String → Option (List Nat) → Option String)
    (unmarshal : String → Option BlockchainC2) (aid : String) :
    ∀ (frags : List (String × EventC2ServerData)) (bc : BlockchainServer) (a : Agent),
    GetAgentByID bc aid = some a →
    fragRun aid a.Seq frags = true →
    (recvMany decrypt unmarshal bc frags).2 =
      (finalParse decrypt unmarshal (a.DataBuffer ++ fragData frags)
        a.SessionKey (lastEnc frags)).toList ∧
    ∃ a2, GetAgentByID (recvMany decrypt unmarshal bc frags).1 aid = some a2 ∧
      a2.DataBuffer = "" := by
  intro frags
  induction frags with
  | nil =>
    intro bc a h hrun
    simp [fragRun] at hrun
  | cons p rest ih =>
    intro bc a h hrun
    obtain ⟨now, e⟩ := p
    cases rest with
    | nil =>
      simp only [fragRun, Bool.and_eq_true, beq_iff_eq, decide_eq_true_eq] at hrun
      obtain ⟨⟨heid, hseq⟩, hf⟩ := hrun
      have h2 : GetAgentByID bc e.AgentID = some a := heid ▸ h
      have hstep := recvStep_accept_final decrypt unmarshal now h2 hseq hf
      refine ⟨?_, ?_⟩
      · simp only [recvMany_cons, hstep, recvMany, List.append_nil,
          finalEmit_eq_finalParse, fragData, String.append_empty, lastEnc]
      · refine ⟨{ a with Seq := e.Seq, DataBuffer := "" }, ?_, rfl⟩
        simp only [recvMany_cons, hstep, recvMany, lookup_update, heid]
        simp
    | cons q rs =>
      simp only [fragRun, Bool.and_eq_true, beq_iff_eq, decide_eq_true_eq,
        Bool.not_eq_eq_eq_not, Bool.not_true] at hrun
      obtain ⟨⟨⟨heid, hseq⟩, hf⟩, hrun2⟩ := hrun
      have h2 : GetAgentByID bc e.AgentID = some a := heid ▸ h
      have hstep := recvStep_accept_nonfinal decrypt unmarshal now h2 hseq hf
      set a1 : Agent := { a with Seq := e.Seq, DataBuffer := a.DataBuffer ++ e.Data }
        with ha1
      have hlook : GetAgentByID (updateAgent bc e.AgentID a1) aid = some a1 := by
        rw [lookup_update, if_pos heid.symm]
      have hrun3 : fragRun aid a1.Seq (q :: rs) = true := hrun2
      obtain ⟨hout, a2, hlook2, hbuf2⟩ :=
        ih (updateAgent bc e.AgentID a1) a1 hlook hrun3
      refine ⟨?_, ⟨a2, ?_, hbuf2⟩⟩
      · simp only [recvMany_cons, hstep, List.nil_append]
        rw [hout, ha1]
        simp only [fragData, lastEnc, String.append_assoc]
      · simpa only [recvMany_cons, hstep] using hlook2

theorem sendToAgent_notFound {ε : Type}
    (marshal : BlockchainC2 → Option String)
    (symmetricEncrypt : String → List Nat → Option String)
    (addClientData : Submission → Except ε Unit)
    {bc : BlockchainServer} {agentID : String} (data : String) (msgID : Int)
    (b : Bool) (h : GetAgentByID bc agentID = none) :
    SendToAgent marshal symmetricEncrypt addClientData bc agentID data msgID b =
      ⟨bc, .agentNotFound, []⟩ := by
  simp only [SendToAgent, h]

theorem sendToAgent_marshalError {ε : Type}
    {marshal : BlockchainC2 → Option String}
    (symmetricEncrypt : String → List Nat → Option String)
    (addClientData : Submission → Except ε Unit)
    {bc : BlockchainServer} {agentID : String} {a : Agent} {data : String}
    {msgID : Int} (b : Bool)
    (h : GetAgentByID bc agentID = some a)
    (hm : marshal { AgentID := agentID, MsgID := msgID, Data := data } = none) :
    SendToAgent marshal symmetricEncrypt addClientData bc agentID data msgID b =
      ⟨bc, .marshalError, []⟩ := by
  simp only [SendToAgent, h, hm]

theorem sendToAgent_encryptError {ε : Type}
    {marshal : BlockchainC2 → Option String}
    {symmetricEncrypt : String → List Nat → Option String}
    (addClientData : Submission → Except ε Unit)
    {bc : BlockchainServer} {agentID : String} {a : Agent} {data : String}
    {msgID : Int} (b : Bool) {bytes : String} {key : List Nat}
    (h : GetAgentByID bc agentID = some a)
    (hm : marshal { AgentID := agentID, MsgID := msgID, Data := data } = some bytes)
    (hk : a.SessionKey = some key)
    (he : symmetricEncrypt bytes key = none) :
    SendToAgent marshal symmetricEncrypt addClientData bc agentID data msgID b =
      ⟨bc, .encryptError, []⟩ := by
  simp only [SendToAgent, h, hm, hk, he]

theorem sendToAgent_clear {ε : Type}
    {marshal : BlockchainC2 → Option String}
    (symmetricEncrypt : String → List Nat → Option String)
    (addClientData : Submission → Except ε Unit)
    {bc : BlockchainServer} {agentID : String} {a : Agent} {data : String}
    {msgID : Int} (b : Bool) {bytes : String}
    (h : GetAgentByID bc agentID = some a)
    (hm : marshal { AgentID := agentID, MsgID := msgID, Data := data } = some bytes)
    (hk : a.SessionKey = none) :
    SendToAgent marshal symmetricEncrypt addClientData bc agentID data msgID b =
      (match addClientData ⟨agentID, bytes, a.OutSeq + 1, true, false⟩ with
       | .error te =>
         ⟨updateAgent bc agentID { a with OutSeq := a.OutSeq + 1 },
          .transportError te, [⟨agentID, bytes, a.OutSeq + 1, true, false⟩]⟩
       | .ok _ =>
         ⟨{ updateAgent bc agentID { a with OutSeq := a.OutSeq + 1 } with
              Nonce := bc.Nonce + 1 },
          .ok, [⟨agentID, bytes, a.OutSeq + 1, true, false⟩]⟩) := by
  simp only [SendToAgent, h, hm, hk]
  cases addClientData ⟨agentID, bytes, a.OutSeq + 1, true, false⟩ <;> rfl

theorem sendToAgent_enc {ε : Type}
    {marshal : BlockchainC2 → Option String}
    {symmetricEncrypt : String → List Nat → Option String}
    (addClientData : Submission → Except ε Unit)
    {bc : BlockchainServer} {agentID : String} {a : Agent} {data : String}
    {msgID : Int} (b : Bool) {bytes ct : String} {key : List Nat}
    (h : GetAgentByID bc agentID = some a)
    (hm : marshal { AgentID := agentID, MsgID := msgID, Data := data } = some bytes)
    (hk : a.SessionKey = some key)
    (he : symmetricEncrypt bytes key = some ct) :
    SendToAgent marshal symmetricEncrypt addClientData bc agentID data msgID b =
      (match addClientData ⟨agentID, ct, a.OutSeq + 1, true, true⟩ with
       | .error te =>
         ⟨updateAgent bc agentID { a with OutSeq := a.OutSeq + 1 },
          .transportError te, [⟨agentID, ct, a.OutSeq + 1, true, true⟩]⟩
       | .ok _ =>
         ⟨{ updateAgent bc agentID { a with OutSeq := a.OutSeq + 1 } with
              Nonce := bc.Nonce + 1 },
          .ok, [⟨agentID, ct, a.OutSeq + 1, true, true⟩]⟩) := by
  simp only [SendToAgent, h, hm, hk, he]
  cases addClientData ⟨agentID, ct, a.OutSeq + 1, true, true⟩ <;> rfl

/-! ## Concrete sample values used by the witness theorems -/

/-- A registered agent with watermark 5, no session key. -/
def sampleAgent : Agent :=
  { AgentID := "a", LastSeen := "t0", Seq := 5, OutSeq := 2, UIHistory := ""
    DataBuffer := "", SessionKey := none, CurrentUser := "", Hostname := ""
    Status := Handshake }

/-- A server whose registry holds exactly sampleAgent under key "a". -/
def sampleServer : BlockchainServer :=
  { Agents := fun k => if k = "a" then some sampleAgent else none, Nonce := 5 }

/-- A server with an empty registry. -/
def emptyServer : BlockchainServer := { Agents := fun _ => none, Nonce := 0 }

/-- A cipher whose decryption always fails (for example, no session key). -/
def noDecrypt : String → Option (List Nat) → Option String := fun _ _ => none

/-- A JSON decoder that rejects everything. -/
def noUnmarshal : String → Option BlockchainC2 := fun _ => none

/-- A JSON decoder recognising exactly the buffer "abc". -/
def sampleUnmarshal : String → Option BlockchainC2 :=
  fun s => if s = "abc" then some ⟨"a", 7, "ok"⟩ else none

/-- A total stand-in for json.Marshal. -/
def okMarshal : BlockchainC2 → Option String := fun c => some (c.AgentID ++ c.Data)

/-- A cipher stand-in for Utils.SymmetricEncrypt that always succeeds. -/
def okEncrypt : String → List Nat → Option String := fun s _ => some (s ++ "!")

/-- A transport that accepts every submission. -/
def okTransport : Submission → Except Nat Unit := fun _ => Except.ok ()

/-- A transport that rejects every submission with error 7. -/
def failTransport : Submission → Except Nat Unit := fun _ => Except.error 7

/-- A three-fragment run for agent "a": seq 1, 2, 3, final only on the
third, payloads concatenating to "abc", unencrypted. -/
def sampleFrags : List (String × EventC2ServerData) :=
  [("t1", ⟨"a", 1, "a", false, false⟩),
   ("t2", ⟨"a", 2, "b", false, false⟩),
   ("t3", ⟨"a", 3, "c", true, false⟩)]

/-- Two accepted inbound events for a fresh agent "a", processed at
timestamps "t1" and "t2". -/
def twoAcceptedEvents : List (String × EventC2ServerData) :=
  [("t1", ⟨"a", 1, "x", false, false⟩),
   ("t2", ⟨"a", 2, "y", false, false⟩)]

/-! ## The claims -/

/-- C1: for every agent, the inbound watermark Seq (the spec's inSeq) is
non-decreasing over the processing of any sequence of transport events,
and every event whose seq is at or below the agent's current watermark is
a complete no-op: the whole server state (hence inSeq, dataBuffer and
status) is unchanged and no Command Envelope is emitted for it. -/
theorem claim1_inSeq_monotone_and_stale_noop
    (decrypt : String → Option (List Nat) → Option String)
    (unmarshal : String → Option BlockchainC2)
    (bc : BlockchainServer) (evs : List (String × EventC2ServerData))
    (aid : String) (a : Agent)
    (h : GetAgentByID bc aid = some a) :
    (∃ a2, GetAgentByID (recvMany decrypt unmarshal bc evs).1 aid = some a2 ∧
       a.Seq ≤ a2.Seq) ∧
    (∀ (now : String) (e : EventC2ServerData), e.AgentID = aid → e.Seq ≤ a.Seq →
       recvStep decrypt unmarshal now bc e = (bc, [])) := by
  refine ⟨recvMany_lookup_mono decrypt unmarshal h, ?_⟩
  intro now e heid hseq
  exact recvStep_stale decrypt unmarshal now (heid ▸ h) hseq

/-- Witness for C1 at a concrete server: agent "a" has watermark 5; a
stale event with seq 4 is a complete no-op, and the watermark never
decreases over a concrete event list. -/
theorem claim1_witness :
    GetAgentByID sampleServer "a" = some sampleAgent ∧
    recvStep noDecrypt noUnmarshal "t9" sampleServer ⟨"a", 4, "x", true, true⟩ =
      (sampleServer, []) ∧
    (∃ a2, GetAgentByID
        (recvMany noDecrypt noUnmarshal sampleServer twoAcceptedEvents).1 "a" =
          some a2 ∧ sampleAgent.Seq ≤ a2.Seq) := by
  have hmain := claim1_inSeq_monotone_and_stale_noop noDecrypt noUnmarshal
    sampleServer twoAcceptedEvents "a" sampleAgent rfl
  exact ⟨rfl, hmain.2 "t9" ⟨"a", 4, "x", true, true⟩ rfl (by decide), hmain.1⟩

/-- C5: a send to an agentID absent from the registry returns the
not-found error, performs no transport submission, creates no agent, and
leaves the whole server state (registry, outSeq counters, nonce)
unchanged. -/
theorem claim5_send_unknown_agent {ε : Type}
    (marshal : BlockchainC2 → Option String)
    (symmetricEncrypt : String → List Nat → Option String)
    (addClientData : Submission → Except ε Unit)
    (bc : BlockchainServer) (agentID data : String) (msgID : Int) (b : Bool)
    (h : GetAgentByID bc agentID = none) :
    SendToAgent marshal symmetricEncrypt addClientData bc agentID data msgID b =
      ⟨bc, .agentNotFound, []⟩ :=
  sendToAgent_notFound marshal symmetricEncrypt addClientData data msgID b h

/-- Witness for C5: sending to the empty registry. -/
theorem claim5_witness :
    GetAgentByID emptyServer "ghost" = none ∧
    SendToAgent okMarshal okEncrypt okTransport emptyServer "ghost" "d" 1 true =
      ⟨emptyServer, .agentNotFound, []⟩ :=
  ⟨rfl, claim5_send_unknown_agent okMarshal okEncrypt okTransport emptyServer
    "ghost" "d" 1 true rfl⟩

/-- C8: an inbound event for an unknown agentID creates an Agent record
with status Handshake, inSeq 0, outSeq 0 and an empty dataBuffer, and
later GetOrCreateAgent calls for the same agentID return that same
record unchanged. -/
theorem claim8_auto_create_agent (bc : BlockchainServer) (agentID now : String)
    (h : GetAgentByID bc agentID = none) :
    GetOrCreateAgent bc agentID now =
      (updateAgent bc agentID (newAgent agentID now), newAgent agentID now) ∧
    (newAgent agentID now).Status = Handshake ∧
    (newAgent agentID now).Seq = 0 ∧
    (newAgent agentID now).OutSeq = 0 ∧
    (newAgent agentID now).DataBuffer = "" ∧
    ∀ now2, GetOrCreateAgent (updateAgent bc agentID (newAgent agentID now))
        agentID now2 =
      (updateAgent bc agentID (newAgent agentID now), newAgent agentID now) := by
  refine ⟨getOrCreate_missing h now, rfl, rfl, rfl, rfl, ?_⟩
  intro now2
  exact getOrCreate_found (by rw [lookup_update, if_pos rfl]) now2

/-- Witness for C8 on the empty registry. -/
theorem claim8_witness :
    GetAgentByID emptyServer "a" = none ∧
    GetOrCreateAgent emptyServer "a" "t1" =
      (updateAgent emptyServer "a" (newAgent "a" "t1"), newAgent "a" "t1") ∧
    (newAgent "a" "t1").Status = Handshake ∧
    GetOrCreateAgent (updateAgent emptyServer "a" (newAgent "a" "t1")) "a" "t2" =
      (updateAgent emptyServer "a" (newAgent "a" "t1"), newAgent "a" "t1") := by
  have hmain := claim8_auto_create_agent emptyServer "a" "t1" rfl
  exact ⟨rfl, hmain.1, hmain.2.1, hmain.2.2.2.2.2 "t2"⟩

/-- C9 (code evaluated at the failing input): after two accepted inbound
events for agent "a", processed at timestamps "t1" and "t2", the
watermark shows both events were accepted (Seq = 2), yet LastSeen still
holds "t1": RecvFromAgentLoop never updates LastSeen, which is set only
at agent creation (server.go line 75), so it does not track the last
accepted inbound event as the spec claims. -/
theorem claim9_lastSeen_not_updated :
    ((recvMany noDecrypt noUnmarshal emptyServer twoAcceptedEvents).1.Agents
        "a").map Agent.Seq = some 2 ∧
    ((recvMany noDecrypt noUnmarshal emptyServer twoAcceptedEvents).1.Agents
        "a").map Agent.LastSeen = some "t1" ∧
    ("t1" : String) ≠ "t2" := by
  refine ⟨rfl, rfl, by decide⟩

/-- C10: SendToAgent ignores its encrypt parameter entirely: two calls
differing only in that flag yield the same state, result and transport
submissions; whether the payload is encrypted depends only on the
agent's SessionKey. -/
theorem claim10_encrypt_parameter_ignored {ε : Type}
    (marshal : BlockchainC2 → Option String)
    (symmetricEncrypt : String → List Nat → Option String)
    (addClientData : Submission → Except ε Unit)
    (bc : BlockchainServer) (agentID data : String) (msgID : Int)
    (b1 b2 : Bool) :
    SendToAgent marshal symmetricEncrypt addClientData bc agentID data msgID b1 =
      SendToAgent marshal symmetricEncrypt addClientData bc agentID data msgID b2 :=
  rfl

/-- C2: for every run of fragments addressed to an agent with strictly
increasing sequence numbers above its watermark and the final flag only
on the last fragment, if the concatenated payload parses (after
decryption when the final fragment is marked encrypted) as a Command
Envelope, then processing the run emits exactly that one envelope and
leaves the agent's dataBuffer empty. -/
theorem claim2_fragment_reassembly_roundtrip
    (decrypt : String → Option (List Nat) → Option String)
    (unmarshal : String → Option BlockchainC2)
    (bc : BlockchainServer) (frags : List (String × EventC2ServerData))
    (aid : String) (a : Agent) (env : BlockchainC2)
    (h : GetAgentByID bc aid = some a)
    (hbuf : a.DataBuffer = "")
    (hrun : fragRun aid a.Seq frags = true)
    (hparse : finalParse decrypt unmarshal (fragData frags) a.SessionKey
        (lastEnc frags) = some env) :
    (recvMany decrypt unmarshal bc frags).2 = [env] ∧
    ∃ a2, GetAgentByID (recvMany decrypt unmarshal bc frags).1 aid = some a2 ∧
      a2.DataBuffer = "" := by
  obtain ⟨hout, hex⟩ := recvRun_aux decrypt unmarshal aid frags bc a h hrun
  refine ⟨?_, hex⟩
  rw [hout, hbuf, String.empty_append, hparse]
  rfl

/-- Witness for C2: three fragments with seq 1, 2, 3 for a fresh agent,
final only on the third, payloads concatenating to "abc", which the
decoder parses; exactly one envelope is emitted. -/
theorem claim2_witness :
    GetAgentByID (updateAgent emptyServer "a" (newAgent "a" "t0")) "a" =
      some (newAgent "a" "t0") ∧
    fragRun "a" (newAgent "a" "t0").Seq sampleFrags = true ∧
    (recvMany noDecrypt sampleUnmarshal
        (updateAgent emptyServer "a" (newAgent "a" "t0")) sampleFrags).2 =
      [⟨"a", 7, "ok"⟩] := by
  have hmain := claim2_fragment_reassembly_roundtrip noDecrypt sampleUnmarshal
    (updateAgent emptyServer "a" (newAgent "a" "t0")) sampleFrags "a"
    (newAgent "a" "t0") ⟨"a", 7, "ok"⟩ rfl rfl (by decide) (by decide)
  exact ⟨rfl, by decide, hmain.1⟩

/-- C3: for a processed final transport event, if decryption of the
accumulated buffer fails, or decryption succeeds but parsing fails, or
the event is unencrypted and parsing fails, then no Command Envelope is
emitted; and in every case the agent's dataBuffer is cleared to empty
after the final fragment is processed. -/
theorem claim3_final_failure_no_emit_buffer_cleared
    (decrypt : String → Option (List Nat) → Option String)
    (unmarshal : String → Option BlockchainC2) (now : String)
    (bc : BlockchainServer) (e : EventC2ServerData) (a : Agent)
    (h : GetAgentByID bc e.AgentID = some a)
    (hf : e.F = true)
    (hseq : a.Seq < e.Seq) :
    (∃ a2, GetAgentByID (recvStep decrypt unmarshal now bc e).1 e.AgentID =
        some a2 ∧ a2.DataBuffer = "") ∧
    (((e.Enc = true ∧ decrypt (a.DataBuffer ++ e.Data) a.SessionKey = none) ∨
      (e.Enc = true ∧ ∃ raw, decrypt (a.DataBuffer ++ e.Data) a.SessionKey =
          some raw ∧ unmarshal raw = none) ∨
      (e.Enc = false ∧ unmarshal (a.DataBuffer ++ e.Data) = none)) →
      (recvStep decrypt unmarshal now bc e).2 = []) := by
  have hstep := recvStep_accept_final decrypt unmarshal now h hseq hf
  constructor
  · refine ⟨{ a with Seq := e.Seq, DataBuffer := "" }, ?_, rfl⟩
    rw [hstep]
    simp [lookup_update]
  · intro hfail
    rw [hstep]
    rcases hfail with ⟨henc, hd⟩ | ⟨henc, raw, hd, hu⟩ | ⟨henc, hu⟩
    · simp [finalEmit, henc, hd]
    · simp [finalEmit, henc, hd, hu]
    · simp [finalEmit, henc, hu]

/-- Witness for C3: an encrypted final event whose decryption fails (the
agent has no session key) emits nothing and leaves the buffer empty. -/
theorem claim3_witness :
    GetAgentByID sampleServer "a" = some sampleAgent ∧
    (recvStep noDecrypt noUnmarshal "t9" sampleServer
        ⟨"a", 6, "x", true, true⟩).2 = [] ∧
    (∃ a2, GetAgentByID (recvStep noDecrypt noUnmarshal "t9" sampleServer
        ⟨"a", 6, "x", true, true⟩).1 "a" = some a2 ∧ a2.DataBuffer = "") := by
  have hmain := claim3_final_failure_no_emit_buffer_cleared noDecrypt noUnmarshal
    "t9" sampleServer ⟨"a", 6, "x", true, true⟩ sampleAgent rfl rfl (by decide)
  exact ⟨rfl, hmain.2 (Or.inl ⟨rfl, rfl⟩), hmain.1⟩

/-- C4 counterexample: for a registered agent with no session key and a
transport that rejects the submission, SendToAgent attempts exactly one
transport submission, returns the transport error, and leaves the Auth
nonce unchanged at 5 instead of advancing it to 6 — the nonce is only
advanced after a successful AddClientData (server.go lines 137-142). -/
theorem claim4_counterexample :
    (SendToAgent okMarshal okEncrypt failTransport sampleServer "a" "d" 1
        false).subs.length = 1 ∧
    (SendToAgent okMarshal okEncrypt failTransport sampleServer "a" "d" 1
        false).result = .transportError 7 ∧
    (SendToAgent okMarshal okEncrypt failTransport sampleServer "a" "d" 1
        false).state.Nonce = 5 ∧
    sampleServer.Nonce = 5 := by
  refine ⟨rfl, rfl, rfl, rfl⟩

/-- C4 as amended: the Auth nonce is advanced by exactly one when the
transport submission succeeds, and is left unchanged when the send fails
at any stage, including a failed transport submission. -/
theorem claim4_nonce_advances_only_on_success {ε : Type}
    (marshal : BlockchainC2 → Option String)
    (symmetricEncrypt : String → List Nat → Option String)
    (addClientData : Submission → Except ε Unit)
    (bc : BlockchainServer) (agentID data : String) (msgID : Int) (b : Bool) :
    (SendToAgent marshal symmetricEncrypt addClientData bc agentID data msgID
        b).state.Nonce =
      (if (SendToAgent marshal symmetricEncrypt addClientData bc agentID data
          msgID b).result.isOk then bc.Nonce + 1 else bc.Nonce) := by
  cases h1 : GetAgentByID bc agentID with
  | none =>
    rw [sendToAgent_notFound marshal symmetricEncrypt addClientData data msgID b h1]
    rfl
  | some a =>
    cases h2 : marshal { AgentID := agentID, MsgID := msgID, Data := data } with
    | none =>
      rw [sendToAgent_marshalError symmetricEncrypt addClientData b h1 h2]
      rfl
    | some bytes =>
      cases h3 : a.SessionKey with
      | none =>
        rw [sendToAgent_clear symmetricEncrypt addClientData b h1 h2 h3]
        cases addClientData ⟨agentID, bytes, a.OutSeq + 1, true, false⟩ <;> rfl
      | some key =>
        cases h4 : symmetricEncrypt bytes key with
        | none =>
          rw [sendToAgent_encryptError addClientData b h1 h2 h3 h4]
          rfl
        | some ct =>
          rw [sendToAgent_enc addClientData b h1 h2 h3 h4]
          cases addClientData ⟨agentID, ct, a.OutSeq + 1, true, true⟩ <;> rfl

/-- An agent that has negotiated a session key, and a server holding it. -/
def keyedAgent : Agent :=
  { AgentID := "k", LastSeen := "t0", Seq := 0, OutSeq := 0, UIHistory := ""
    DataBuffer := "", SessionKey := some [1, 2, 3], CurrentUser := ""
    Hostname := "", Status := Handshake }

def keyedServer : BlockchainServer :=
  { Agents := fun k => if k = "k" then some keyedAgent else none, Nonce := 0 }

/-- C6: a successful send to a registered agent performs exactly one
transport submission with final = true, and that submission carries the
encrypted serialized envelope with the encrypted flag true exactly when
the agent's SessionKey is set, and the serialized envelope in clear with
the flag false otherwise. -/
theorem claim6_send_encrypts_iff_sessionKey {ε : Type}
    (marshal : BlockchainC2 → Option String)
    (symmetricEncrypt : String → List Nat → Option String)
    (addClientData : Submission → Except ε Unit)
    (bc : BlockchainServer) (agentID data : String) (msgID : Int) (b : Bool)
    (a : Agent)
    (h : GetAgentByID bc agentID = some a)
    (hok : (SendToAgent marshal symmetricEncrypt addClientData bc agentID data
        msgID b).result = .ok) :
    ∃ sub, (SendToAgent marshal symmetricEncrypt addClientData bc agentID data
        msgID b).subs = [sub] ∧
      sub.final = true ∧
      ((a.SessionKey = none ∧ sub.enc = false ∧
          marshal { AgentID := agentID, MsgID := msgID, Data := data } =
            some sub.rawData) ∨
       (∃ key bytes, a.SessionKey = some key ∧ sub.enc = true ∧
          marshal { AgentID := agentID, MsgID := msgID, Data := data } =
            some bytes ∧
          symmetricEncrypt bytes key = some sub.rawData)) := by
  cases h2 : marshal { AgentID := agentID, MsgID := msgID, Data := data } with
  | none =>
    rw [sendToAgent_marshalError symmetricEncrypt addClientData b h h2] at hok
    simp at hok
  | some bytes =>
    cases h3 : a.SessionKey with
    | none =>
      have hs := sendToAgent_clear (b := b) symmetricEncrypt addClientData h h2 h3
      cases h4 : addClientData ⟨agentID, bytes, a.OutSeq + 1, true, false⟩ with
      | error te =>
        rw [hs] at hok
        simp only [h4] at hok
        simp at hok
      | ok u =>
        refine ⟨⟨agentID, bytes, a.OutSeq + 1, true, false⟩, ?_, rfl,
          Or.inl ⟨rfl, rfl, rfl⟩⟩
        rw [hs]
        simp only [h4]
    | some key =>
      cases h4 : symmetricEncrypt bytes key with
      | none =>
        rw [sendToAgent_encryptError addClientData b h h2 h3 h4] at hok
        simp at hok
      | some ct =>
        have hs := sendToAgent_enc (b := b) addClientData h h2 h3 h4
        cases h5 : addClientData ⟨agentID, ct, a.OutSeq + 1, true, true⟩ with
        | error te =>
          rw [hs] at hok
          simp only [h5] at hok
          simp at hok
        | ok u =>
          refine ⟨⟨agentID, ct, a.OutSeq + 1, true, true⟩, ?_, rfl,
            Or.inr ⟨key, bytes, rfl, rfl, rfl, h4⟩⟩
          rw [hs]
          simp only [h5]

/-- Witness for C6 on a keyed agent: the sole submission is final and
encrypted. -/
theorem claim6_witness :
    GetAgentByID keyedServer "k" = some keyedAgent ∧
    (SendToAgent okMarshal okEncrypt okTransport keyedServer "k" "d" 9
        false).result = .ok ∧
    ∃ sub, (SendToAgent okMarshal okEncrypt okTransport keyedServer "k" "d" 9
        false).subs = [sub] ∧
      sub.final = true ∧
      ((keyedAgent.SessionKey = none ∧ sub.enc = false ∧
          okMarshal { AgentID := "k", MsgID := 9, Data := "d" } =
            some sub.rawData) ∨
       (∃ key bytes, keyedAgent.SessionKey = some key ∧ sub.enc = true ∧
          okMarshal { AgentID := "k", MsgID := 9, Data := "d" } = some bytes ∧
          okEncrypt bytes key = some sub.rawData)) :=
  ⟨rfl, rfl, claim6_send_encrypts_iff_sessionKey okMarshal okEncrypt okTransport
    keyedServer "k" "d" 9 false keyedAgent rfl rfl⟩

/-- C7: when the transport submission fails, the transport's error value
is returned unmodified, exactly one submission was attempted carrying
sequence number outSeq + 1, and the agent's incremented OutSeq is not
rolled back. -/
theorem claim7_transport_error_outSeq_not_rolled_back {ε : Type}
    (marshal : BlockchainC2 → Option String)
    (symmetricEncrypt : String → List Nat → Option String)
    (addClientData : Submission → Except ε Unit)
    (bc : BlockchainServer) (agentID data : String) (msgID : Int) (b : Bool)
    (a : Agent) (te : ε)
    (h : GetAgentByID bc agentID = some a)
    (herr : (SendToAgent marshal symmetricEncrypt addClientData bc agentID data
        msgID b).result = .transportError te) :
    (∃ sub, (SendToAgent marshal symmetricEncrypt addClientData bc agentID data
        msgID b).subs = [sub] ∧
      addClientData sub = Except.error te ∧ sub.seq = a.OutSeq + 1) ∧
    (∃ a2, GetAgentByID (SendToAgent marshal symmetricEncrypt addClientData bc
        agentID data msgID b).state agentID = some a2 ∧
      a2.OutSeq = a.OutSeq + 1) := by
  cases h2 : marshal { AgentID := agentID, MsgID := msgID, Data := data } with
  | none =>
    rw [sendToAgent_marshalError symmetricEncrypt addClientData b h h2] at herr
    simp at herr
  | some bytes =>
    cases h3 : a.SessionKey with
    | none =>
      have hs := sendToAgent_clear (b := b) symmetricEncrypt addClientData h h2 h3
      cases h4 : addClientData ⟨agentID, bytes, a.OutSeq + 1, true, false⟩ with
      | ok u =>
        rw [hs] at herr
        simp only [h4] at herr
        simp at herr
      | error te2 =>
        rw [hs] at herr
        simp only [h4] at herr
        simp only [SendResult.transportError.injEq] at herr
        subst herr
        refine ⟨⟨⟨agentID, bytes, a.OutSeq + 1, true, false⟩, ?_, h4, rfl⟩,
          ⟨{ a with OutSeq := a.OutSeq + 1 }, ?_, rfl⟩⟩
        · rw [hs]
          simp only [h4]
        · rw [hs]
          simp only [h4]
          rw [lookup_update, if_pos rfl]
    | some key =>
      cases h4 : symmetricEncrypt bytes key with
      | none =>
        rw [sendToAgent_encryptError addClientData b h h2 h3 h4] at herr
        simp at herr
      | some ct =>
        have hs := sendToAgent_enc (b := b) addClientData h h2 h3 h4
        cases h5 : addClientData ⟨agentID, ct, a.OutSeq + 1, true, true⟩ with
        | ok u =>
          rw [hs] at herr
          simp only [h5] at herr
          simp at herr
        | error te2 =>
          rw [hs] at herr
          simp only [h5] at herr
          simp only [SendResult.transportError.injEq] at herr
          subst herr
          refine ⟨⟨⟨agentID, ct, a.OutSeq + 1, true, true⟩, ?_, h5, rfl⟩,
            ⟨{ a with OutSeq := a.OutSeq + 1 }, ?_, rfl⟩⟩
          · rw [hs]
            simp only [h5]
          · rw [hs]
            simp only [h5]
            rw [lookup_update, if_pos rfl]

/-- Witness for C7: a failing transport returns its error 7 unmodified
and leaves the agent's OutSeq advanced from 2 to 3. -/
theorem claim7_witness :
    GetAgentByID sampleServer "a" = some sampleAgent ∧
    (SendToAgent okMarshal okEncrypt failTransport sampleServer "a" "d" 1
        true).result = .transportError 7 ∧
    ((∃ sub, (SendToAgent okMarshal okEncrypt failTransport sampleServer "a" "d"
        1 true).subs = [sub] ∧
      failTransport sub = Except.error 7 ∧ sub.seq = sampleAgent.OutSeq + 1) ∧
    (∃ a2, GetAgentByID (SendToAgent okMarshal okEncrypt failTransport
        sampleServer "a" "d" 1 true).state "a" = some a2 ∧
      a2.OutSeq = sampleAgent.OutSeq + 1)) :=
  ⟨rfl, rfl, claim7_transport_error_outSeq_not_rolled_back okMarshal okEncrypt
    failTransport sampleServer "a" "d" 1 true sampleAgent 7 rfl rfl⟩

end BlockchainC2
